import Mathlib

/-!
Verification of the `ndarray-rblas` adapter layer (`src/ndarray-rblas/src/lib.rs`).

The crate marshals strided n-dimensional array views into the descriptor
convention of a foreign BLAS library: every shape and stride value must fit
into the foreign signed integer (`c_int`, 32 bits), and a matrix must have a
trivially contiguous innermost axis.  We shallowly embed the data model and
the operations: a view is shape + strides + base offset + a memory function,
machine casts are modelled with explicit modular arithmetic, and fallible
code returns `Except`/`Option` (an `Option.none` models a panic).
-/

namespace NdarrayRblas

/-- Maximum value of the foreign integer `c_int` (`i32`), as a `Nat`
(for comparisons against `usize` shape values, `max as Ix` in the source). -/
def cIntMaxNat : Nat := 2147483647

/-- Maximum value of the foreign integer `c_int` (`i32`), as an `Int`
(for comparisons against `isize` stride values, `max as Ixs` in the source). -/
def cIntMax : Int := 2147483647

/-- Minimum value of the foreign integer `c_int` (`i32`). -/
def cIntMin : Int := -2147483648

/-- The Rust `as c_int` cast of an integer quantity (`usize` or `isize`
values are reduced modulo `2^32` into the signed 32-bit window). -/
def toCInt (x : Int) : Int := (x + 2147483648) % 4294967296 - 2147483648

/-- A borrowed array view (`ArrayView` / `ArrayViewMut` / `ArrayBase` borrow):
per-axis shape (`usize`) and strides (`isize`, element units, may be
negative), a base pointer modelled as an address, and the element memory
modelled as a total function on addresses.  `wf` records that the view has
one stride per axis. -/
structure ArrView (A : Type) where
  shape : List Nat
  strides : List Int
  base : Int
  mem : Int → A
  wf : strides.length = shape.length

/-- Rank of a view (`.ndim()`). -/
def ArrView.ndim {A : Type} (a : ArrView A) : Nat := a.shape.length

/-- The two `ndarray::ErrorKind` values this crate produces. -/
inductive ErrorKind where
  | RangeLimited
  | IncompatibleLayout
deriving DecidableEq

/-- Read-only adapter `BlasArrayView` wrapping a view. -/
structure BlasArrayView (A : Type) where
  arr : ArrView A

/-- Read-write adapter `BlasArrayViewMut` wrapping a view. -/
structure BlasArrayViewMut (A : Type) where
  arr : ArrView A

/-- Error component of an `Except` result (decidably comparable, unlike the
full `Except` value whose payload carries a memory function). -/
def errKind {E B : Type} : Except E B → Option E
  | .error e => some e
  | .ok _ => none

/-- Success test for an `Except` result. -/
def isOkE {E B : Type} : Except E B → Bool
  | .ok _ => true
  | .error _ => false

/-- The loop body of `Priv::size_check` over the zipped (dim, stride) pairs:
return `RangeLimited` on the first pair with `dim > max as Ix` or
`stride > max as Ixs`, otherwise `Ok(())`. -/
def sizeCheckPairs : List (Nat × Int) → Except ErrorKind Unit
  | [] => .ok ()
  | (dim, stride) :: rest =>
    if dim > cIntMaxNat ∨ stride > cIntMax then .error .RangeLimited
    else sizeCheckPairs rest

/-- Embedding of `Priv::size_check`: validate every shape/stride pair of the view. -/
def size_check {A : Type} (a : ArrView A) : Except ErrorKind Unit :=
  sizeCheckPairs (a.shape.zip a.strides)

/-- Embedding of `is_inner_contiguous`: the innermost axis is contiguous — vacuously for
rank 0, otherwise its length is at most 1 or its stride is 1. -/
def is_inner_contiguous {A : Type} (a : ArrView A) : Bool :=
  if a.ndim = 0 then true
  else decide (a.shape.getD (a.ndim - 1) 0 ≤ 1) || (a.strides.getD (a.ndim - 1) 0 == 1)

/-- Embedding of `Priv::contiguous_check`: `IncompatibleLayout` unless the innermost axis
is contiguous. -/
def contiguous_check {A : Type} (a : ArrView A) : Except ErrorKind Unit :=
  if is_inner_contiguous a then .ok ()
  else .error .IncompatibleLayout

/-- Modelled from the spec: the canonical C (row-major) strides an array with
the given shape has in standard layout — each axis's stride is the product of
the lengths of the axes after it (`ndarray`'s default strides; the `ndarray`
core crate is part of this repository but not under `src/`). -/
def cStrides : List Nat → List Int
  | [] => []
  | _ :: rest => (rest.prod : Int) :: cStrides rest

/-- Modelled from the spec: `ndarray`'s `is_standard_layout` predicate —
"dense row-major storage with canonical strides derived purely from shape"
(spec glossary), i.e. the view's strides are the canonical C strides. -/
def is_standard_layout {A : Type} (a : ArrView A) : Bool :=
  a.strides == cStrides a.shape

/-- All logical multi-indices of a shape in logical (row-major, last axis
fastest) order. -/
def logicalIndices : List Nat → List (List Nat)
  | [] => [[]]
  | n :: rest => (List.range n).flatMap fun i => (logicalIndices rest).map fun ix => i :: ix

/-- Linear offset of a multi-index under given strides. -/
def offsetOf : List Int → List Nat → Int
  | s :: ss, i :: is => (i : Int) * s + offsetOf ss is
  | _, _ => 0

/-- Modelled from the spec: `ndarray` element iteration in logical order
(`a.iter()`, spec §6 "element iteration (logical order)"): visit every
multi-index in row-major order and read the element at the strided offset. -/
def iterLogical {A : Type} (a : ArrView A) : List A :=
  (logicalIndices a.shape).map fun ix => a.mem (a.base + offsetOf a.strides ix)

theorem cStrides_length (d : List Nat) : (cStrides d).length = d.length := by
  induction d with
  | nil => rfl
  | cons n rest ih => simp [cStrides, ih]

/-- Modelled from the spec: `ndarray`'s `ArrayBase::from_vec_dim` — rebuild
an owned array of the given shape from a linear buffer, with canonical
strides; fails unless the buffer length equals the product of the dims
(spec §6 "in-place storage replacement from a linear buffer plus target
shape"). -/
def from_vec_dim {A : Type} [Inhabited A] (d : List Nat) (v : List A) : Option (ArrView A) :=
  if v.length = d.prod then
    some { shape := d, strides := cStrides d, base := 0,
           mem := fun i => v.getD i.toNat default, wf := cStrides_length d }
  else none

/-- Embedding of `ensure_standard_layout`: if the array is not in standard layout, copy
all elements (in logical order) into a fresh buffer and rebuild the array
from it; `none` models the panic of the `.unwrap()` on the rebuild. -/
def ensure_standard_layout {A : Type} [Inhabited A] (a : ArrView A) : Option (ArrView A) :=
  if is_standard_layout a then some a
  else from_vec_dim a.shape (iterLogical a)

/-- Embedding of `Priv::into_blas_view`: `try!` the contiguity check when rank > 1, then
`try!` the range check, then wrap as a read-only adapter. -/
def into_blas_view {A : Type} (a : ArrView A) : Except ErrorKind (BlasArrayView A) :=
  match (if a.ndim > 1 then contiguous_check a else .ok ()) with
  | .error e => .error e
  | .ok _ =>
    match size_check a with
    | .error e => .error e
    | .ok _ => .ok ⟨a⟩

/-- Embedding of `Priv::into_blas_view_mut`: `try!` the contiguity check when rank > 1,
then `try!` the range check, then wrap as a read-write adapter. -/
def into_blas_view_mut {A : Type} (a : ArrView A) : Except ErrorKind (BlasArrayViewMut A) :=
  match (if a.ndim > 1 then contiguous_check a else .ok ()) with
  | .error e => .error e
  | .ok _ =>
    match size_check a with
    | .error e => .error e
    | .ok _ => .ok ⟨a⟩

/-- Embedding of `AsBlas::blas_view_checked`: adapt a read-only borrow. -/
def blas_view_checked {A : Type} (a : ArrView A) : Except ErrorKind (BlasArrayView A) :=
  into_blas_view a

/-- Embedding of `AsBlas::blas_view_mut_checked`: adapt a mutable borrow. -/
def blas_view_mut_checked {A : Type} (a : ArrView A) : Except ErrorKind (BlasArrayViewMut A) :=
  into_blas_view_mut a

/-- Embedding of `AsBlas::blas_checked` on `&mut self`: range check first; for rank 2
normalize the layout when the inner axis is not contiguous, for rank > 2
always normalize; then wrap the (possibly replaced) array.  The result pairs
the `Result` with the array's final state; the outer `none` models the panic
inside `ensure_standard_layout`. -/
def blas_checked {A : Type} [Inhabited A] (a : ArrView A) :
    Option (Except ErrorKind (BlasArrayViewMut A) × ArrView A) :=
  match size_check a with
  | .error e => some (.error e, a)
  | .ok _ =>
    match a.ndim with
    | 0 => some (into_blas_view_mut a, a)
    | 1 => some (into_blas_view_mut a, a)
    | 2 =>
      if is_inner_contiguous a then some (into_blas_view_mut a, a)
      else
        match ensure_standard_layout a with
        | none => none
        | some a2 => some (into_blas_view_mut a2, a2)
    | _ + 3 =>
      match ensure_standard_layout a with
      | none => none
      | some a2 => some (into_blas_view_mut a2, a2)

/-- Embedding of `Vector::len for BlasArrayView`: `self.0.len() as c_int`, where
`ndarray`'s `len` is the total element count (the product of the shape). -/
def BlasArrayView.vecLen {A : Type} (v : BlasArrayView A) : Int :=
  toCInt (v.arr.shape.prod : Int)

/-- Embedding of `Vector::inc for BlasArrayView`: `self.0.strides()[0] as c_int`. -/
def BlasArrayView.vecInc {A : Type} (v : BlasArrayView A) : Int :=
  toCInt (v.arr.strides.getD 0 0)

/-- Embedding of `Vector::as_ptr for BlasArrayView`: the view's base address. -/
def BlasArrayView.asPtr {A : Type} (v : BlasArrayView A) : Int := v.arr.base

/-- Embedding of `Vector::as_mut_ptr for BlasArrayView`: the body is
`panic!("ndarray: as_mut_ptr called on BlasArrayView (not mutable)")`;
the panic is modelled as `none` — no pointer is ever produced. -/
def BlasArrayView.vectorAsMutPtr {A : Type} (_ : BlasArrayView A) : Option Int := none

/-- Embedding of `Matrix::as_mut_ptr for BlasArrayView`: likewise a panic, modelled as
`none`. -/
def BlasArrayView.matrixAsMutPtr {A : Type} (_ : BlasArrayView A) : Option Int := none

/-- Embedding of `Vector::len for BlasArrayViewMut`. -/
def BlasArrayViewMut.vecLen {A : Type} (v : BlasArrayViewMut A) : Int :=
  toCInt (v.arr.shape.prod : Int)

/-- Embedding of `Vector::inc for BlasArrayViewMut`. -/
def BlasArrayViewMut.vecInc {A : Type} (v : BlasArrayViewMut A) : Int :=
  toCInt (v.arr.strides.getD 0 0)

/-- Embedding of `Matrix::rows for BlasArrayViewMut`: `self.0.dim().0 as c_int`. -/
def BlasArrayViewMut.rows {A : Type} (m : BlasArrayViewMut A) : Int :=
  toCInt (m.arr.shape.getD 0 0 : Int)

/-- Embedding of `Matrix::cols for BlasArrayViewMut`: `self.0.dim().1 as c_int`. -/
def BlasArrayViewMut.cols {A : Type} (m : BlasArrayViewMut A) : Int :=
  toCInt (m.arr.shape.getD 1 0 : Int)

/-- Embedding of `Matrix::lead_dim for BlasArrayViewMut`: `self.0.strides()[0] as c_int`. -/
def BlasArrayViewMut.leadDim {A : Type} (m : BlasArrayViewMut A) : Int :=
  toCInt (m.arr.strides.getD 0 0)

/-- Embedding of `as_ptr`/`as_mut_ptr` for `BlasArrayViewMut`: the base address, which the
mutable adapter does hand out. -/
def BlasArrayViewMut.asMutPtr {A : Type} (m : BlasArrayViewMut A) : Option Int :=
  some m.arr.base

/-- The acceptance condition the code's range check actually tests: every
shape value at most the `c_int` maximum and every stride VALUE (signed
comparison) at most the `c_int` maximum. -/
def sizeOk {A : Type} (a : ArrView A) : Prop :=
  (∀ d ∈ a.shape, d ≤ cIntMaxNat) ∧ ∀ s ∈ a.strides, s ≤ cIntMax

instance {A : Type} (a : ArrView A) : Decidable (sizeOk a) := by
  unfold sizeOk; infer_instance

/-- The spec's reading of range validation: every shape value and every
stride MAGNITUDE (absolute value) at most the `c_int` maximum. -/
def sizeOkMagnitude {A : Type} (a : ArrView A) : Prop :=
  (∀ d ∈ a.shape, d ≤ cIntMaxNat) ∧ ∀ s ∈ a.strides, s.natAbs ≤ cIntMaxNat

instance {A : Type} (a : ArrView A) : Decidable (sizeOkMagnitude a) := by
  unfold sizeOkMagnitude; infer_instance

theorem sizeCheckPairs_ok_iff (l : List (Nat × Int)) :
    sizeCheckPairs l = .ok () ↔ ∀ p ∈ l, p.1 ≤ cIntMaxNat ∧ p.2 ≤ cIntMax := by
  induction l with
  | nil => simp [sizeCheckPairs]
  | cons p rest ih =>
    obtain ⟨dim, stride⟩ := p
    have hdef : sizeCheckPairs ((dim, stride) :: rest) =
        if dim > cIntMaxNat ∨ stride > cIntMax then Except.error ErrorKind.RangeLimited
        else sizeCheckPairs rest := rfl
    by_cases h : dim > cIntMaxNat ∨ stride > cIntMax
    · rw [hdef, if_pos h]
      constructor
      · intro hok; cases hok
      · intro hall
        have hm := hall (dim, stride) (List.mem_cons_self _ _)
        rcases h with h | h
        · exact absurd hm.1 (by omega)
        · exact absurd hm.2 (by omega)
    · rw [hdef, if_neg h, ih]
      simp only [List.forall_mem_cons]
      have h1 : dim ≤ cIntMaxNat := by omega
      have h2 : stride ≤ cIntMax := by omega
      exact ⟨fun hr => ⟨⟨h1, h2⟩, hr⟩, fun hr => hr.2⟩

theorem sizeCheckPairs_cases (l : List (Nat × Int)) :
    sizeCheckPairs l = .ok () ∨ sizeCheckPairs l = .error .RangeLimited := by
  induction l with
  | nil => left; rfl
  | cons p rest ih =>
    obtain ⟨dim, stride⟩ := p
    by_cases h : dim > cIntMaxNat ∨ stride > cIntMax
    · right; simp [sizeCheckPairs, if_pos h]
    · simpa [sizeCheckPairs, if_neg h] using ih

theorem forall_zip_iff {α β : Type} (P : α → Prop) (Q : β → Prop) :
    ∀ (l1 : List α) (l2 : List β), l1.length = l2.length →
      ((∀ p ∈ l1.zip l2, P p.1 ∧ Q p.2) ↔ (∀ x ∈ l1, P x) ∧ ∀ y ∈ l2, Q y) := by
  intro l1
  induction l1 with
  | nil => intro l2 h; cases l2 <;> simp_all
  | cons a t ih =>
    intro l2 h
    cases l2 with
    | nil => simp at h
    | cons b t2 =>
      have h' := ih t2 (by simpa using h)
      simp only [List.zip_cons_cons, List.forall_mem_cons, h']
      tauto

theorem size_check_eq_ok_iff {A : Type} (a : ArrView A) :
    size_check a = .ok () ↔ sizeOk a := by
  unfold size_check sizeOk
  rw [sizeCheckPairs_ok_iff]
  exact forall_zip_iff (fun d => d ≤ cIntMaxNat) (fun s => s ≤ cIntMax)
    a.shape a.strides a.wf.symm

/-- A rank-1 view whose stride is negative with magnitude `2^31 + 1`,
exceeding the `c_int` bound in absolute value while passing the code's
signed comparison. -/
def cexNegStride : ArrView Int :=
  ⟨[1], [-2147483649], 0, fun _ => 0, rfl⟩

/-- C1 (counterexample): the claim says range validation accepts exactly
when every shape value and every stride MAGNITUDE is at most the `c_int`
maximum; but `size_check` accepts a view whose stride is `-(2^31 + 1)`,
whose magnitude exceeds the bound, because the code compares the signed
stride value only. -/
theorem size_check_magnitude_counterexample :
    ¬ (isOkE (size_check cexNegStride) = true ↔ sizeOkMagnitude cexNegStride) := by
  decide

/-- C1 (amended): `size_check` accepts exactly when every shape value is at
most the `c_int` maximum and every stride VALUE, under signed comparison, is
at most that bound (negative strides are accepted regardless of magnitude);
any failure is the `RangeLimited` error; and the check is a pure function of
the view with no side effects. -/
theorem size_check_range_characterization {A : Type} (a : ArrView A) :
    (size_check a = .ok () ↔ sizeOk a) ∧
    (size_check a = .ok () ∨ size_check a = .error .RangeLimited) :=
  ⟨size_check_eq_ok_iff a, sizeCheckPairs_cases _⟩

theorem size_check_eq_error {A : Type} (a : ArrView A) (h : ¬ sizeOk a) :
    size_check a = .error .RangeLimited := by
  rcases sizeCheckPairs_cases (a.shape.zip a.strides) with hok | herr
  · exact absurd ((size_check_eq_ok_iff a).1 hok) h
  · exact herr

theorem size_check_ite {A : Type} (a : ArrView A) :
    size_check a = if sizeOk a then .ok () else .error .RangeLimited := by
  by_cases hs : sizeOk a
  · rw [if_pos hs]; exact (size_check_eq_ok_iff a).2 hs
  · rw [if_neg hs]; exact size_check_eq_error a hs

theorem into_blas_view_spec {A : Type} (a : ArrView A) :
    into_blas_view a =
      if a.ndim > 1 ∧ is_inner_contiguous a = false then .error .IncompatibleLayout
      else if sizeOk a then .ok ⟨a⟩ else .error .RangeLimited := by
  unfold into_blas_view contiguous_check
  rw [size_check_ite]
  by_cases hn : a.ndim > 1 <;> by_cases hc : is_inner_contiguous a <;>
    by_cases hs : sizeOk a <;>
      simp [hn, hc, hs]

theorem into_blas_view_mut_spec {A : Type} (a : ArrView A) :
    into_blas_view_mut a =
      if a.ndim > 1 ∧ is_inner_contiguous a = false then .error .IncompatibleLayout
      else if sizeOk a then .ok ⟨a⟩ else .error .RangeLimited := by
  unfold into_blas_view_mut contiguous_check
  rw [size_check_ite]
  by_cases hn : a.ndim > 1 <;> by_cases hc : is_inner_contiguous a <;>
    by_cases hs : sizeOk a <;>
      simp [hn, hc, hs]

/-- A rank-2 view whose axis-0 stride `2^40` exceeds the `c_int` maximum and
whose innermost axis (length 3, stride 7) is not contiguous. -/
def cexBigStride2 : ArrView Int :=
  ⟨[2, 3], [1099511627776, 7], 0, fun _ => 0, rfl⟩

/-- C2 (counterexample): the claim says every checked entry point fails with
`RangeExceeded` — not any other error — on a view with an out-of-range
value; but on a rank-2 out-of-range view whose inner axis is also
non-contiguous, `blas_view_checked` and `blas_view_mut_checked` run the
contiguity check first and fail with `IncompatibleLayout`. -/
theorem range_error_first_counterexample :
    ¬ sizeOk cexBigStride2 ∧
    errKind (blas_view_checked cexBigStride2) = some ErrorKind.IncompatibleLayout ∧
    errKind (blas_view_mut_checked cexBigStride2) = some ErrorKind.IncompatibleLayout := by
  decide

/-- C2 (amended): on a view with some shape or stride value above the
`c_int` maximum, `blas_checked` fails with `RangeLimited` and leaves the
array unchanged (no copy or mutation), while `blas_view_checked` and
`blas_view_mut_checked` fail with `RangeLimited` unless the view has rank
≥ 2 with a non-contiguous innermost axis, in which case they fail with
`IncompatibleLayout`; neither mutates or copies the array. -/
theorem range_error_entry_points (a : ArrView Int) (h : ¬ sizeOk a) :
    blas_checked a = some (.error .RangeLimited, a) ∧
    errKind (blas_view_checked a) =
      some (if a.ndim > 1 ∧ is_inner_contiguous a = false then ErrorKind.IncompatibleLayout
            else ErrorKind.RangeLimited) ∧
    errKind (blas_view_mut_checked a) =
      some (if a.ndim > 1 ∧ is_inner_contiguous a = false then ErrorKind.IncompatibleLayout
            else ErrorKind.RangeLimited) := by
  refine ⟨?_, ?_, ?_⟩
  · unfold blas_checked
    rw [size_check_eq_error a h]
  · unfold blas_view_checked
    rw [into_blas_view_spec]
    by_cases hcond : a.ndim > 1 ∧ is_inner_contiguous a = false
    · rw [if_pos hcond, if_pos hcond]; rfl
    · rw [if_neg hcond, if_neg hcond, if_neg h]; rfl
  · unfold blas_view_mut_checked
    rw [into_blas_view_mut_spec]
    by_cases hcond : a.ndim > 1 ∧ is_inner_contiguous a = false
    · rw [if_pos hcond, if_pos hcond]; rfl
    · rw [if_neg hcond, if_neg hcond, if_neg h]; rfl

/-- A rank-1 view whose stride `2^40` exceeds the `c_int` maximum. -/
def cexBigStride1 : ArrView Int :=
  ⟨[1], [1099511627776], 0, fun _ => 0, rfl⟩

/-- Witness for C2's amended theorem at a concrete rank-1 out-of-range
view. -/
theorem range_error_entry_points_witness :
    ¬ sizeOk cexBigStride1 ∧
    (blas_checked cexBigStride1 = some (.error .RangeLimited, cexBigStride1) ∧
     errKind (blas_view_checked cexBigStride1) =
       some (if cexBigStride1.ndim > 1 ∧ is_inner_contiguous cexBigStride1 = false
             then ErrorKind.IncompatibleLayout else ErrorKind.RangeLimited) ∧
     errKind (blas_view_mut_checked cexBigStride1) =
       some (if cexBigStride1.ndim > 1 ∧ is_inner_contiguous cexBigStride1 = false
             then ErrorKind.IncompatibleLayout else ErrorKind.RangeLimited)) :=
  ⟨by decide, range_error_entry_points cexBigStride1 (by decide)⟩

/-- C3: on any rank-2 view whose shape and strides are in range, the two
view entry points fail with `IncompatibleLayout` exactly when the innermost
axis has length > 1 and stride ≠ 1; a rank-0 view is vacuously contiguous,
and rank-0/1 in-range views are never rejected at all. -/
theorem layout_rejection_iff (a : ArrView Int) (hr : sizeOk a) :
    (a.ndim = 0 → is_inner_contiguous a = true) ∧
    (a.ndim ≤ 1 → errKind (blas_view_checked a) = none ∧
                  errKind (blas_view_mut_checked a) = none) ∧
    (a.ndim = 2 →
      ((errKind (blas_view_checked a) = some ErrorKind.IncompatibleLayout ↔
          1 < a.shape.getD 1 0 ∧ a.strides.getD 1 0 ≠ 1) ∧
       (errKind (blas_view_mut_checked a) = some ErrorKind.IncompatibleLayout ↔
          1 < a.shape.getD 1 0 ∧ a.strides.getD 1 0 ≠ 1))) := by
  refine ⟨?_, ?_, ?_⟩
  · intro h0
    unfold is_inner_contiguous
    rw [if_pos h0]
  · intro h1
    have hcond : ¬ (a.ndim > 1 ∧ is_inner_contiguous a = false) := by omega
    constructor
    · unfold blas_view_checked
      rw [into_blas_view_spec, if_neg hcond, if_pos hr]; rfl
    · unfold blas_view_mut_checked
      rw [into_blas_view_mut_spec, if_neg hcond, if_pos hr]; rfl
  · intro h2
    have hinner : is_inner_contiguous a =
        (decide (a.shape.getD 1 0 ≤ 1) || (a.strides.getD 1 0 == 1)) := by
      unfold is_inner_contiguous
      rw [if_neg (by omega), h2]
    have key : ∀ e : Except ErrorKind Unit,
        (if a.ndim > 1 ∧ is_inner_contiguous a = false then true else false) = true ↔
        (1 < a.shape.getD 1 0 ∧ a.strides.getD 1 0 ≠ 1) := by
      intro _
      by_cases hcond : a.ndim > 1 ∧ is_inner_contiguous a = false
      · rw [if_pos hcond]
        simp only [true_iff]
        have := hcond.2
        rw [hinner] at this
        simp only [Bool.or_eq_false_iff, decide_eq_false_iff_not, beq_eq_false_iff_ne] at this
        exact ⟨by omega, this.2⟩
      · rw [if_neg hcond]
        refine iff_of_false (by decide) ?_
        intro ⟨hl, hs⟩
        apply hcond
        refine ⟨by omega, ?_⟩
        rw [hinner]
        simp only [Bool.or_eq_false_iff, decide_eq_false_iff_not, beq_eq_false_iff_ne]
        exact ⟨by omega, hs⟩
    constructor
    · unfold blas_view_checked
      rw [into_blas_view_spec]
      by_cases hcond : a.ndim > 1 ∧ is_inner_contiguous a = false
      · rw [if_pos hcond]
        exact iff_of_true rfl ((key (.ok ())).1 (by rw [if_pos hcond]))
      · rw [if_neg hcond, if_pos hr]
        refine iff_of_false (fun hfalse => by simp [errKind] at hfalse) ?_
        intro hcontr
        exact absurd ((key (.ok ())).2 hcontr) (by rw [if_neg hcond]; decide)
    · unfold blas_view_mut_checked
      rw [into_blas_view_mut_spec]
      by_cases hcond : a.ndim > 1 ∧ is_inner_contiguous a = false
      · rw [if_pos hcond]
        exact iff_of_true rfl ((key (.ok ())).1 (by rw [if_pos hcond]))
      · rw [if_neg hcond, if_pos hr]
        refine iff_of_false (fun hfalse => by simp [errKind] at hfalse) ?_
        intro hcontr
        exact absurd ((key (.ok ())).2 hcontr) (by rw [if_neg hcond]; decide)

/-- A rank-2 in-range view with non-contiguous innermost axis: a 3×2 block
sliced out of a 3×4 row-major matrix keeping columns 0 and 2. -/
def cexSliced32 : ArrView Int :=
  ⟨[3, 2], [4, 2], 0, fun i => i, rfl⟩

/-- Witness for C3 at a concrete in-range non-contiguous rank-2 view. -/
theorem layout_rejection_iff_witness :
    sizeOk cexSliced32 ∧
    errKind (blas_view_checked cexSliced32) = some ErrorKind.IncompatibleLayout :=
  ⟨by decide,
   ((layout_rejection_iff cexSliced32 (by decide)).2.2 (by decide)).1.2 (by decide)⟩

/-- Success payload of an `Except` result. -/
def okPart {E B : Type} : Except E B → Option B
  | .ok b => some b
  | .error _ => none

theorem size_check_cases {A : Type} (a : ArrView A) :
    size_check a = .ok () ∨ size_check a = .error .RangeLimited :=
  sizeCheckPairs_cases _

/-- The invariant actually guaranteed for every constructed adapter: the
wrapped view passed the signed range check, and — when its rank is at least
2 — its innermost axis is trivially contiguous. -/
def adapterSound {A : Type} (w : ArrView A) : Prop :=
  sizeOk w ∧ (w.ndim > 1 → is_inner_contiguous w = true)

instance {A : Type} (w : ArrView A) : Decidable (adapterSound w) := by
  unfold adapterSound; infer_instance

theorem into_blas_view_ok {A : Type} (a : ArrView A) (v : BlasArrayView A)
    (h : into_blas_view a = .ok v) : v.arr = a ∧ adapterSound a := by
  rw [into_blas_view_spec] at h
  by_cases hcond : a.ndim > 1 ∧ is_inner_contiguous a = false
  · rw [if_pos hcond] at h; cases h
  · rw [if_neg hcond] at h
    by_cases hs : sizeOk a
    · rw [if_pos hs] at h
      cases h
      refine ⟨rfl, hs, fun hn => ?_⟩
      rcases Bool.eq_false_or_eq_true (is_inner_contiguous a) with ht | hf
      · exact ht
      · exact absurd ⟨hn, hf⟩ hcond
    · rw [if_neg hs] at h; cases h

theorem into_blas_view_mut_ok {A : Type} (a : ArrView A) (v : BlasArrayViewMut A)
    (h : into_blas_view_mut a = .ok v) : v.arr = a ∧ adapterSound a := by
  rw [into_blas_view_mut_spec] at h
  by_cases hcond : a.ndim > 1 ∧ is_inner_contiguous a = false
  · rw [if_pos hcond] at h; cases h
  · rw [if_neg hcond] at h
    by_cases hs : sizeOk a
    · rw [if_pos hs] at h
      cases h
      refine ⟨rfl, hs, fun hn => ?_⟩
      rcases Bool.eq_false_or_eq_true (is_inner_contiguous a) with ht | hf
      · exact ht
      · exact absurd ⟨hn, hf⟩ hcond
    · rw [if_neg hs] at h; cases h

theorem blas_checked_cases (a : ArrView Int) (r : Except ErrorKind (BlasArrayViewMut Int))
    (a2 : ArrView Int) (h : blas_checked a = some (r, a2)) :
    r = .error .RangeLimited ∨ r = into_blas_view_mut a2 := by
  unfold blas_checked at h
  cases hsz : size_check a with
  | error e =>
    rw [hsz] at h
    have he : e = .RangeLimited := by
      rcases size_check_cases a with h1 | h1
      · rw [hsz] at h1; cases h1
      · rw [hsz] at h1; injection h1
    simp only [Option.some.injEq, Prod.mk.injEq] at h
    left; rw [← h.1, he]
  | ok u =>
    rw [hsz] at h
    rcases hn : a.ndim with _ | _ | _ | n <;> rw [hn] at h
    · simp only [Option.some.injEq, Prod.mk.injEq] at h
      right; rw [← h.1, ← h.2]
    · simp only [Option.some.injEq, Prod.mk.injEq] at h
      right; rw [← h.1, ← h.2]
    · by_cases hc : is_inner_contiguous a
      · rw [if_pos hc] at h
        simp only [Option.some.injEq, Prod.mk.injEq] at h
        right; rw [← h.1, ← h.2]
      · rw [if_neg hc] at h
        cases hens : ensure_standard_layout a with
        | none => rw [hens] at h; cases h
        | some a3 =>
          rw [hens] at h
          simp only [Option.some.injEq, Prod.mk.injEq] at h
          right; rw [← h.1, ← h.2]
    · cases hens : ensure_standard_layout a with
      | none => rw [hens] at h; cases h
      | some a3 =>
        rw [hens] at h
        simp only [Option.some.injEq, Prod.mk.injEq] at h
        right; rw [← h.1, ← h.2]

/-- A rank-1 view of length 3 with stride `-2^32`: its inner axis is not
contiguous and its stride magnitude exceeds the `c_int` bound, yet the
read-only adapter is constructed. -/
def cexRank1Neg : ArrView Int :=
  ⟨[3], [-4294967296], 0, fun _ => 0, rfl⟩

/-- C4 (counterexample): the claim says every constructed adapter wraps a
view with unit innermost stride (or axis length ≤ 1) and with every
shape/stride magnitude within the foreign width; but `blas_view_checked`
constructs an adapter around a rank-1 view violating both. -/
theorem adapter_invariant_counterexample :
    (okPart (blas_view_checked cexRank1Neg)).map
      (fun v => (is_inner_contiguous v.arr,
                 decide (∀ s ∈ v.arr.strides, s.natAbs ≤ cIntMaxNat))) =
      some (false, false) := by
  decide

/-- C4 (amended): every constructed adapter (read-only, read-write, or
produced by `blas_checked`) wraps a view that passed the signed range check
(shape values and stride values at most the `c_int` maximum; negative
stride magnitudes are unconstrained), and whose innermost axis is trivially
contiguous whenever its rank is at least 2; rank-0/1 adapters carry no
contiguity guarantee. -/
theorem adapters_sound (a : ArrView Int) :
    (∀ v, blas_view_checked a = .ok v → adapterSound v.arr) ∧
    (∀ v, blas_view_mut_checked a = .ok v → adapterSound v.arr) ∧
    (∀ r a2, blas_checked a = some (r, a2) →
      ∀ v, r = .ok v → adapterSound v.arr) := by
  refine ⟨?_, ?_, ?_⟩
  · intro v h
    obtain ⟨he, hs⟩ := into_blas_view_ok a v h
    rw [he]; exact hs
  · intro v h
    obtain ⟨he, hs⟩ := into_blas_view_mut_ok a v h
    rw [he]; exact hs
  · intro r a2 hbc v hr
    rcases blas_checked_cases a r a2 hbc with hcase | hcase
    · rw [hcase] at hr; cases hr
    · rw [hcase] at hr
      obtain ⟨he, hs⟩ := into_blas_view_mut_ok a2 v hr
      rw [he]; exact hs

/-- A standard-layout in-range 2×3 view. -/
def stdView23 : ArrView Int :=
  ⟨[2, 3], [3, 1], 0, fun i => i, rfl⟩

/-- Witness for C4's amended theorem at a concrete in-range contiguous
rank-2 view. -/
theorem adapters_sound_witness : adapterSound stdView23 :=
  (adapters_sound stdView23).1 ⟨stdView23⟩ rfl

/-- C6: applying `ensure_standard_layout` to an array already in standard
layout is a no-op — the very same array (storage, shape and strides) is
kept and no element copy occurs. -/
theorem ensure_standard_layout_noop (a : ArrView Int) (h : is_standard_layout a = true) :
    ensure_standard_layout a = some a := by
  unfold ensure_standard_layout
  rw [if_pos h]

/-- Witness for C6 at a concrete standard-layout 2×3 view. -/
theorem ensure_standard_layout_noop_witness :
    is_standard_layout stdView23 = true ∧
    ensure_standard_layout stdView23 = some stdView23 :=
  ⟨by decide, ensure_standard_layout_noop stdView23 (by decide)⟩

theorem logicalIndices_length (d : List Nat) :
    (logicalIndices d).length = d.prod := by
  induction d with
  | nil => rfl
  | cons n rest ih =>
    rw [show logicalIndices (n :: rest) =
        (List.range n).flatMap (fun i => (logicalIndices rest).map fun ix => i :: ix) from rfl]
    rw [List.length_flatMap]
    have hconst : (List.map (List.length ∘ fun i =>
        List.map (fun ix => i :: ix) (logicalIndices rest)) (List.range n)) =
        List.replicate n rest.prod := by
      rw [show (List.length ∘ fun i =>
          List.map (fun ix => i :: ix) (logicalIndices rest)) =
          fun _ : Nat => rest.prod from by funext i; simp [ih]]
      rw [List.map_const', List.length_range]
    rw [hconst, List.sum_replicate, smul_eq_mul, List.prod_cons]

/-- C10: the rebuild inside `ensure_standard_layout` can never fail — for
every array, logical-order iteration collects exactly `shape.prod` elements,
so `from_vec_dim` succeeds and the modelled `.unwrap()` never panics. -/
theorem ensure_standard_layout_total (a : ArrView Int) :
    (iterLogical a).length = a.shape.prod ∧
    (ensure_standard_layout a).isSome = true := by
  have hlen : (iterLogical a).length = a.shape.prod := by
    unfold iterLogical
    rw [List.length_map, logicalIndices_length]
  refine ⟨hlen, ?_⟩
  unfold ensure_standard_layout
  by_cases h : is_standard_layout a
  · rw [if_pos h]; rfl
  · rw [if_neg h]
    unfold from_vec_dim
    rw [if_pos hlen]
    rfl

theorem range_mul_flatMap (n P : Nat) :
    (List.range n).flatMap (fun i => (List.range P).map (fun k => i * P + k)) =
      List.range (n * P) := by
  induction n with
  | zero => simp
  | succ m ih =>
    rw [List.range_succ, List.flatMap_append, ih, Nat.succ_mul, List.range_add]
    simp

theorem offsets_eq_range (d : List Nat) :
    (logicalIndices d).map (offsetOf (cStrides d)) =
      (List.range d.prod).map Int.ofNat := by
  induction d with
  | nil => rfl
  | cons n rest ih =>
    have step1 : (logicalIndices (n :: rest)).map (offsetOf (cStrides (n :: rest))) =
        (List.range n).flatMap (fun i => (logicalIndices rest).map
          (fun ix => (i : Int) * (rest.prod : Int) + offsetOf (cStrides rest) ix)) := by
      rw [show logicalIndices (n :: rest) =
          (List.range n).flatMap (fun i => (logicalIndices rest).map fun ix => i :: ix) from rfl]
      rw [List.map_flatMap]
      congr 1
      funext i
      rw [List.map_map]
      rfl
    have step2 : ∀ i : Nat, (logicalIndices rest).map
        (fun ix => (i : Int) * (rest.prod : Int) + offsetOf (cStrides rest) ix) =
        (List.range rest.prod).map (fun k => Int.ofNat (i * rest.prod + k)) := by
      intro i
      have hcomp : (logicalIndices rest).map
          (fun ix => (i : Int) * (rest.prod : Int) + offsetOf (cStrides rest) ix) =
          ((logicalIndices rest).map (offsetOf (cStrides rest))).map
            (fun o => (i : Int) * (rest.prod : Int) + o) := by
        rw [List.map_map]
        rfl
      rw [hcomp, ih, List.map_map]
      congr 1
    calc (logicalIndices (n :: rest)).map (offsetOf (cStrides (n :: rest)))
        = (List.range n).flatMap (fun i => (List.range rest.prod).map
            (fun k => Int.ofNat (i * rest.prod + k))) := by
          rw [step1]; congr 1; funext i; exact step2 i
      _ = ((List.range n).flatMap (fun i => (List.range rest.prod).map
            (fun k => i * rest.prod + k))).map Int.ofNat := by
          rw [List.map_flatMap]
          congr 1
          funext i
          rw [List.map_map]
          rfl
      _ = (List.range ((n :: rest).prod)).map Int.ofNat := by
          rw [range_mul_flatMap, List.prod_cons, Nat.mul_comm]

theorem getD_range_self {A : Type} [Inhabited A] (v : List A) :
    (List.range v.length).map (fun k => v.getD k default) = v := by
  induction v with
  | nil => rfl
  | cons a t ih =>
    have h1 : ((fun k => (a :: t).getD k default) ∘ Nat.succ) =
        fun k => t.getD k default := rfl
    rw [List.length_cons, List.range_succ_eq_map, List.map_cons, List.map_map, h1, ih]
    rfl

theorem iterLogical_from_vec {A : Type} [Inhabited A] (d : List Nat) (v : List A)
    (hv : v.length = d.prod) (b : ArrView A) (hb : from_vec_dim d v = some b) :
    iterLogical b = v ∧ b.shape = d ∧ b.strides = cStrides d := by
  unfold from_vec_dim at hb
  rw [if_pos hv] at hb
  injection hb with hb
  subst hb
  refine ⟨?_, rfl, rfl⟩
  unfold iterLogical
  have hcomp : (logicalIndices d).map
      (fun ix => v.getD ((0 : Int) + offsetOf (cStrides d) ix).toNat default) =
      ((logicalIndices d).map (offsetOf (cStrides d))).map
        (fun o => v.getD ((0 + o).toNat) default) := by
    rw [List.map_map]
    rfl
  show (logicalIndices d).map
      (fun ix => v.getD ((0 : Int) + offsetOf (cStrides d) ix).toNat default) = v
  rw [hcomp, offsets_eq_range, List.map_map]
  have h2 : ((fun o : Int => v.getD (0 + o).toNat default) ∘ Int.ofNat) =
      fun k : Nat => v.getD k default := by
    funext k
    simp
  rw [h2, ← hv, getD_range_self]

/-- C5: on an owned, in-range, rank-2 array whose innermost axis has
length > 1 and stride ≠ 1, `blas_checked` succeeds, the resulting adapter
wraps the normalized array whose inner-axis stride is 1, the shape is
unchanged, and iterating the normalized array in logical order yields
exactly the element sequence of the original array's logical iteration. -/
theorem blas_checked_normalizes (a : ArrView Int) (hnd : a.ndim = 2)
    (hr : sizeOk a) (hl : 1 < a.shape.getD 1 0) (hs : a.strides.getD 1 0 ≠ 1) :
    ∃ (v : BlasArrayViewMut Int) (a2 : ArrView Int),
      blas_checked a = some (.ok v, a2) ∧ v.arr = a2 ∧
      a2.shape = a.shape ∧ a2.strides.getD 1 0 = 1 ∧
      iterLogical a2 = iterLogical a := by
  obtain ⟨s0, s1, hshape⟩ : ∃ s0 s1, a.shape = [s0, s1] :=
    List.length_eq_two.1 hnd
  have hcstr : cStrides a.shape = [(s1 : Int), 1] := by
    rw [hshape]
    simp [cStrides]
  have hsz : size_check a = .ok () := (size_check_eq_ok_iff a).2 hr
  have hcontig : is_inner_contiguous a = false := by
    unfold is_inner_contiguous
    rw [if_neg (by omega : ¬ a.ndim = 0), hnd]
    have h1 : decide (a.shape.getD 1 0 ≤ 1) = false := by
      simp only [decide_eq_false_iff_not]
      omega
    have h2 : (a.strides.getD 1 0 == 1) = false := by
      simp only [beq_eq_false_iff_ne, ne_eq]
      exact hs
    rw [show (2 : Nat) - 1 = 1 from rfl, h1, h2]
    rfl
  have hstd : is_standard_layout a = false := by
    unfold is_standard_layout
    rw [beq_eq_false_iff_ne]
    intro heq
    apply hs
    rw [heq, hcstr]
    rfl
  have hlen : (iterLogical a).length = a.shape.prod := by
    unfold iterLogical
    rw [List.length_map, logicalIndices_length]
  obtain ⟨b, hb⟩ : ∃ b, from_vec_dim a.shape (iterLogical a) = some b := by
    unfold from_vec_dim
    rw [if_pos hlen]
    exact ⟨_, rfl⟩
  obtain ⟨hiter, hbshape, hbstrides⟩ :=
    iterLogical_from_vec a.shape (iterLogical a) hlen b hb
  have hens : ensure_standard_layout a = some b := by
    unfold ensure_standard_layout
    rw [if_neg (by rw [hstd]; exact Bool.false_ne_true), hb]
  have hbc : blas_checked a = some (into_blas_view_mut b, b) := by
    unfold blas_checked
    rw [hsz, hnd]
    rw [if_neg (by rw [hcontig]; exact Bool.false_ne_true), hens]
  have hbnd : b.ndim = 2 := by
    unfold ArrView.ndim
    rw [hbshape, hshape]
    rfl
  have hbinner : b.strides.getD 1 0 = 1 := by
    rw [hbstrides, hcstr]
    rfl
  have hc2 : is_inner_contiguous b = true := by
    unfold is_inner_contiguous
    rw [if_neg (by omega : ¬ b.ndim = 0), hbnd]
    rw [show (2 : Nat) - 1 = 1 from rfl]
    rw [Bool.or_eq_true, beq_iff_eq]
    right
    exact hbinner
  have hsOk : sizeOk b := by
    constructor
    · rw [hbshape]
      exact hr.1
    · rw [hbstrides, hcstr]
      intro s hsmem
      have hs1 : s1 ≤ cIntMaxNat := hr.1 s1 (by rw [hshape]; simp)
      rcases List.mem_cons.1 hsmem with h | h
      · subst h
        show (s1 : Int) ≤ cIntMax
        unfold cIntMax
        unfold cIntMaxNat at hs1
        exact_mod_cast hs1
      · simp only [List.mem_singleton] at h
        subst h
        decide
  have hnormOk : into_blas_view_mut b = .ok (BlasArrayViewMut.mk b) := by
    rw [into_blas_view_mut_spec]
    rw [if_neg (by rw [hc2]; intro hcontr; cases hcontr.2)]
    rw [if_pos hsOk]
  refine ⟨BlasArrayViewMut.mk b, b, ?_, rfl, hbshape, hbinner, hiter⟩
  rw [hbc, hnormOk]

/-- Witness for C5 at the concrete column-sliced 3×2 view (inner stride
2, inner length 2, elements 0,2,4,6,8,10 of the base buffer). -/
theorem blas_checked_normalizes_witness :
    ∃ (v : BlasArrayViewMut Int) (a2 : ArrView Int),
      blas_checked cexSliced32 = some (.ok v, a2) ∧ v.arr = a2 ∧
      a2.shape = cexSliced32.shape ∧ a2.strides.getD 1 0 = 1 ∧
      iterLogical a2 = iterLogical cexSliced32 :=
  blas_checked_normalizes cexSliced32 (by decide) (by decide) (by decide) (by decide)

theorem toCInt_eq_self (x : Int) (h1 : cIntMin ≤ x) (h2 : x ≤ cIntMax) :
    toCInt x = x := by
  unfold toCInt
  unfold cIntMin at h1
  unfold cIntMax at h2
  have h3 : (0 : Int) ≤ x + 2147483648 := by omega
  have h4 : x + 2147483648 < 4294967296 := by omega
  rw [Int.emod_eq_of_lt h3 h4]
  omega

/-- C7: every rank-0 or rank-1 view whose shape and stride values fit the
`c_int` range is accepted by both view entry points regardless of stride,
and for rank 1 the adapter's descriptor reports length equal to the axis-0
shape and increment equal to the axis-0 stride, exactly (the `as c_int`
cast is the identity on them). -/
theorem low_rank_views_succeed (a : ArrView Int) (hnd : a.ndim ≤ 1)
    (hfit : (∀ d ∈ a.shape, d ≤ cIntMaxNat) ∧
            ∀ s ∈ a.strides, cIntMin ≤ s ∧ s ≤ cIntMax) :
    blas_view_checked a = .ok (BlasArrayView.mk a) ∧
    blas_view_mut_checked a = .ok (BlasArrayViewMut.mk a) ∧
    (a.ndim = 1 →
      (BlasArrayView.mk a).vecLen = (a.shape.getD 0 0 : Int) ∧
      (BlasArrayView.mk a).vecInc = a.strides.getD 0 0 ∧
      (BlasArrayViewMut.mk a).vecLen = (a.shape.getD 0 0 : Int) ∧
      (BlasArrayViewMut.mk a).vecInc = a.strides.getD 0 0) := by
  have hsOk : sizeOk a := ⟨hfit.1, fun s hs => (hfit.2 s hs).2⟩
  have hcond : ¬ (a.ndim > 1 ∧ is_inner_contiguous a = false) := by omega
  refine ⟨?_, ?_, ?_⟩
  · unfold blas_view_checked
    rw [into_blas_view_spec, if_neg hcond, if_pos hsOk]
  · unfold blas_view_mut_checked
    rw [into_blas_view_mut_spec, if_neg hcond, if_pos hsOk]
  · intro h1
    obtain ⟨n, hshape⟩ : ∃ n, a.shape = [n] := List.length_eq_one.1 h1
    obtain ⟨t, hstrides⟩ : ∃ t, a.strides = [t] := by
      have : a.strides.length = 1 := by rw [a.wf]; exact h1
      exact List.length_eq_one.1 this
    have hn : n ≤ cIntMaxNat := hfit.1 n (by rw [hshape]; simp)
    have ht : cIntMin ≤ t ∧ t ≤ cIntMax := hfit.2 t (by rw [hstrides]; simp)
    have hlen : toCInt ((a.shape.prod : Nat) : Int) = (a.shape.getD 0 0 : Int) := by
      rw [hshape]
      show toCInt ((n * 1 : Nat) : Int) = (n : Int)
      rw [Nat.mul_one]
      refine toCInt_eq_self (n : Int) (by unfold cIntMin; omega) ?_
      unfold cIntMax
      unfold cIntMaxNat at hn
      exact_mod_cast hn
    have hinc : toCInt (a.strides.getD 0 0) = a.strides.getD 0 0 := by
      rw [hstrides]
      exact toCInt_eq_self t ht.1 ht.2
    exact ⟨hlen, hinc, hlen, hinc⟩

/-- A rank-1 in-range view with negative stride -2. -/
def vecNegStride : ArrView Int :=
  ⟨[3], [-2], 0, fun i => i, rfl⟩

/-- Witness for C7 at a concrete length-3 stride-(-2) view. -/
theorem low_rank_views_succeed_witness :
    blas_view_checked vecNegStride = .ok (BlasArrayView.mk vecNegStride) ∧
    blas_view_mut_checked vecNegStride = .ok (BlasArrayViewMut.mk vecNegStride) ∧
    (vecNegStride.ndim = 1 →
      (BlasArrayView.mk vecNegStride).vecLen = (vecNegStride.shape.getD 0 0 : Int) ∧
      (BlasArrayView.mk vecNegStride).vecInc = vecNegStride.strides.getD 0 0 ∧
      (BlasArrayViewMut.mk vecNegStride).vecLen = (vecNegStride.shape.getD 0 0 : Int) ∧
      (BlasArrayViewMut.mk vecNegStride).vecInc = vecNegStride.strides.getD 0 0) :=
  low_rank_views_succeed vecNegStride (by decide) ⟨by decide, by decide⟩

/-- C8: requesting a mutable raw pointer through a read-only adapter —
whether used as a vector or as a matrix — always terminates fatally
(the panic is modelled as `none`): no pointer value is ever returned, so
there is no silent fallback to read-only behavior. -/
theorem as_mut_ptr_readonly_fatal {A : Type} (v : BlasArrayView A) :
    v.vectorAsMutPtr = none ∧ v.matrixAsMutPtr = none :=
  ⟨rfl, rfl⟩

/-- The 3×3 row-major matrix [[1,2,3],[4,5,6],[7,8,9]] with strides (3,1). -/
def mat33 : ArrView Int :=
  ⟨[3, 3], [3, 1], 0, fun i => [1, 2, 3, 4, 5, 6, 7, 8, 9].getD i.toNat 0, rfl⟩

/-- The length-3 unit-stride vector [1, 0, 1]. -/
def vec3 : ArrView Int :=
  ⟨[3], [1], 0, fun i => [1, 0, 1].getD i.toNat 0, rfl⟩

/-- Modelled from the spec: the foreign matrix-vector multiply (`Gemv`,
`NoTrans`, from the external `rblas` crate, not part of this repository's
sources): reading the matrix through its descriptor (`as_ptr`, `rows`,
`cols`, `lead_dim`) and the input vector through its descriptor (`as_ptr`,
`inc`), it computes `y[i] = alpha * (Σ_j A[i,j] * x[j]) + beta * y[i]`,
where `A[i,j]` is read at `ptr + i*lead_dim + j` and `x[j]` at
`ptr + j*inc`. -/
def gemv (alpha : Int) (m : BlasArrayViewMut Int) (x : BlasArrayView Int)
    (beta : Int) (y : List Int) : List Int :=
  (List.range m.rows.toNat).map fun (i : Nat) =>
    alpha * (((List.range m.cols.toNat).map fun (j : Nat) =>
      m.arr.mem (m.arr.base + (i : Int) * m.leadDim + (j : Int)) *
      x.arr.mem (x.arr.base + (j : Int) * x.vecInc)).sum) + beta * y.getD i 0

/-- C9: `writeView` on the 3×3 row-major matrix (axis-0 stride 3, axis-1
stride 1) and `readView` on the length-3 unit-stride vector both succeed;
the matrix descriptor reports rows = 3, cols = 3 and leading dimension 3;
and the matrix-vector multiply through these descriptors with alpha = 1,
beta = 1 over [[1,2,3],[4,5,6],[7,8,9]] and [1,0,1] (y initially zero)
yields [4,10,16]. -/
theorem gemv_scenario :
    (okPart (blas_view_mut_checked mat33)).map
        (fun m => (m.rows, m.cols, m.leadDim)) = some (3, 3, 3) ∧
    isOkE (blas_view_checked vec3) = true ∧
    (okPart (blas_view_mut_checked mat33)).bind (fun m =>
      (okPart (blas_view_checked vec3)).map (fun x =>
        gemv 1 m x 1 [0, 0, 0])) = some [4, 10, 16] := by
  decide

end NdarrayRblas
